import Mathlib

/-!
Shallow embedding of the NarrowMind-S2 TF-IDF sentence-ranking engine
(`src/model.js`, canonical stemmed `NarrowMindModel` class).

JavaScript numbers are modelled by exact reals (`ℝ`), `Math.log` by
`Real.log`, `Math.sqrt` by `Real.sqrt`.  The mutable `this` object is
modelled by explicit state passing: each method that may write to the
IDF cache returns the result together with the updated model.  The
`Map` used for the IDF cache is modelled by an association list with
`List.lookup`; `Map.set` on a key that is known to be absent is
modelled by consing the new entry (lookup semantics agree).

The Unicode character classes `\p{L}` / `\p{N}` of the tokenizing
regular expression are modelled by `Char.isAlphanum` (their ASCII
fragment); `String.toLowerCase` is modelled by `String.toLower`.
-/

/-- Models `String.prototype.toLowerCase`: lower-case every character. -/
def lowerStr (s : String) : String := String.mk (s.data.map Char.toLower)

/-- Models `String.prototype.length`: the number of characters. -/
def strLen (s : String) : Nat := s.data.length

/-- Models `String.prototype.endsWith`: the last characters of `s` are
exactly `sfx`. -/
def endsWithStr (s sfx : String) : Bool :=
  s.data.drop (s.data.length - sfx.data.length) == sfx.data

/-- Models `str.slice(0, -n)`: drop the last `n` characters. -/
def dropRightStr (s : String) (n : Nat) : String :=
  String.mk (s.data.take (s.data.length - n))

/-- Models `String.prototype.trim`: strip leading and trailing whitespace. -/
def trimStr (s : String) : String :=
  String.mk (((s.data.dropWhile Char.isWhitespace).reverse.dropWhile Char.isWhitespace).reverse)

/-- `true` on the characters kept by the token regex `[^\p{L}\p{N}]+`
(split on maximal runs of everything else). -/
def isWordChar (c : Char) : Bool := c.isAlphanum

/-- Split a character list into the maximal runs of characters
satisfying `p` (the non-`p` separators are discarded, empty pieces
never occur).  `acc` holds the current run, reversed. -/
def splitRunsAux (p : Char → Bool) : List Char → List Char → List (List Char)
  | acc, [] => if acc = [] then [] else [acc.reverse]
  | acc, c :: cs =>
    if p c then splitRunsAux p (c :: acc) cs
    else if acc = [] then splitRunsAux p [] cs
    else acc.reverse :: splitRunsAux p [] cs

/-- Maximal runs of characters satisfying `p`; models
`str.split(/nonP+/).filter(Boolean)`. -/
def splitRuns (p : Char → Bool) (l : List Char) : List (List Char) :=
  splitRunsAux p [] l

/-- `parseTokens` (src/model.js): trim, split on maximal runs of
non-alphanumeric characters, drop empty pieces; empty input gives `[]`. -/
def parseTokens (text : String) : List String :=
  if text = "" then []
  else (splitRuns isWordChar (trimStr text).data).map (fun cs => String.mk cs)

/-- One stemming rule: suffix, minimum strict length bound, optional
replacement (JS `[suffix, minLength, replacement]` with `null`
modelled by `none`). -/
structure StemRule where
  sfx : String
  minLen : Nat
  repl : Option String

/-- The ordered suffix rule table of `stemWord` (src/model.js). -/
def suffixRules : List StemRule :=
  [⟨"ies", 4, some "y"⟩, ⟨"es", 4, none⟩, ⟨"s", 3, none⟩, ⟨"ing", 5, none⟩,
   ⟨"ed", 4, none⟩, ⟨"er", 4, none⟩, ⟨"est", 5, none⟩, ⟨"ly", 4, none⟩,
   ⟨"tion", 6, none⟩, ⟨"ness", 6, none⟩, ⟨"ment", 6, none⟩]

/-- The `for (const [suffix, minLength, replacement] of suffixes)` loop
of `stemWord`: first matching rule wins, fallback returns the word
unchanged.  A rule matches when the word ends with the suffix and the
word's length strictly exceeds the rule's minimum length. -/
def applyRules : List StemRule → String → String
  | [], w => w
  | r :: rs, w =>
    if endsWithStr w r.sfx ∧ r.minLen < strLen w then
      dropRightStr w (strLen r.sfx) ++ r.repl.getD ""
    else applyRules rs w

/-- `stemWord` (src/model.js): words shorter than 3 characters are
returned as given; otherwise the ordered rule table is applied to the
lower-cased word. -/
def stemWord (word : String) : String :=
  if strLen word < 3 then word
  else applyRules suffixRules (lowerStr word)

/-- `parseTokensStemmed` (src/model.js): tokenize, then stem each
lower-cased token. -/
def parseTokensStemmed (text : String) : List String :=
  if text = "" then []
  else (parseTokens text).map (fun t => stemWord (lowerStr t))

/-- The sentence separator class `[.!?,"“”:;\n]+` of `parseSentences`. -/
def sentenceSeparators : List Char :=
  ['.', '!', '?', ',', '"', '“', '”', ':', ';', '\n']

/-- `parseSentences` (src/model.js): split on maximal runs of
separator characters, trim each piece, drop empty pieces. -/
def parseSentences (text : String) : List String :=
  if text = "" then []
  else ((splitRuns (fun c => !(sentenceSeparators.contains c)) text.data).map
      (fun cs => trimStr (String.mk cs))).filter (fun s => s != "")

/-- Insertion-order preserving deduplication, modelling iteration over
`new Set(list)` (`acc` is the set of elements already seen). -/
def dedupFirstAux : List String → List String → List String
  | _, [] => []
  | seen, x :: xs =>
    if x ∈ seen then dedupFirstAux seen xs
    else x :: dedupFirstAux (x :: seen) xs

/-- `[...new Set(l)]`: the elements of `l` with later duplicates removed. -/
def dedupFirst (l : List String) : List String := dedupFirstAux [] l

/-- `calculateTF` (src/model.js): relative frequency of `token` in
`wordList`, `0` for an empty list. -/
noncomputable def calculateTF (token : String) (wordList : List String) : ℝ :=
  if wordList = [] then 0
  else ((wordList.filter (fun w => w == token)).length : ℝ) / (wordList.length : ℝ)

/-- The document-frequency count of `calculateIDF`:
`documents.filter(doc => doc.includes(token)).length`. -/
def dfCount (token : String) (documents : List (List String)) : Nat :=
  (documents.filter (fun doc => doc.contains token)).length

/-- `calculateIDF` (src/model.js): `ln((N+1)/(df+1)) + 1`, and `0` for
an empty document list. -/
noncomputable def calculateIDF (token : String) (documents : List (List String)) : ℝ :=
  if documents = [] then 0
  else Real.log (((documents.length : ℝ) + 1) / ((dfCount token documents : ℝ) + 1)) + 1

/-- The state of a `NarrowMindModel` object. -/
structure NMModel where
  rawData : String
  tokens : List String
  sentences : List String
  corpusDocs : List (List String)
  idfCache : List (String × ℝ)

/-- `precomputeIDF` (src/model.js): IDF entries for all distinct
stemmed tokens of the per-sentence documents, in first-occurrence order. -/
noncomputable def precomputeIDF (corpusDocs : List (List String)) : List (String × ℝ) :=
  (dedupFirst corpusDocs.flatten).map (fun t => (t, calculateIDF t corpusDocs))

/-- The `NarrowMindModel` constructor (src/model.js, stemmed class). -/
noncomputable def NMModel.build (data : String) : NMModel :=
  { rawData := data
    tokens := parseTokens data
    sentences := parseSentences data
    corpusDocs := (parseSentences data).map parseTokensStemmed
    idfCache := precomputeIDF ((parseSentences data).map parseTokensStemmed) }

/-- `getIDF` (src/model.js): cached value if present, else compute
against the current documents, cache it and return it.  The updated
model is returned alongside the value. -/
noncomputable def getIDF (m : NMModel) (token : String) : ℝ × NMModel :=
  match m.idfCache.lookup token with
  | some v => (v, m)
  | none =>
    (calculateIDF token m.corpusDocs,
      { m with idfCache := (token, calculateIDF token m.corpusDocs) :: m.idfCache })

/-- The value `getIDF` returns in a given model state (cache hit or
freshly computed). -/
noncomputable def getIDFval (m : NMModel) (token : String) : ℝ :=
  match m.idfCache.lookup token with
  | some v => v
  | none => calculateIDF token m.corpusDocs

/-- The `vocab.map(token => this.calculateTF(token, words) *
this.getIDF(token))` vector construction, threading the cache state. -/
noncomputable def tfidfVecSt (words : List String) : NMModel → List String → List ℝ × NMModel
  | m, [] => ([], m)
  | m, t :: ts =>
    let r := getIDF m t
    let rest := tfidfVecSt words r.2 ts
    (calculateTF t words * r.1 :: rest.1, rest.2)

/-- `vec.reduce((sum, val, i) => sum + val * vec2[i], 0)`. -/
noncomputable def dotL (v w : List ℝ) : ℝ := (List.zipWith (fun a b => a * b) v w).sum

/-- `Math.sqrt(vec.reduce((sum, val) => sum + val * val, 0))`. -/
noncomputable def magL (v : List ℝ) : ℝ := Real.sqrt ((v.map (fun a => a * a)).sum)

/-- `calculateTFIDFSimilarity` (src/model.js): TF-IDF cosine
similarity of two spans, returning the score and the updated model. -/
noncomputable def calculateTFIDFSimilarity (m : NMModel) (sentence1 sentence2 : String) :
    ℝ × NMModel :=
  let words1 := parseTokensStemmed sentence1
  let words2 := parseTokensStemmed sentence2
  if words1 = [] ∨ words2 = [] then (0, m)
  else
    let vocab := dedupFirst (words1 ++ words2)
    let r1 := tfidfVecSt words1 m vocab
    let r2 := tfidfVecSt words2 r1.2 vocab
    if magL r1.1 = 0 ∨ magL r2.1 = 0 then (0, r2.2)
    else (dotL r1.1 r2.1 / (magL r1.1 * magL r2.1), r2.2)

/-- The `for (const sentence of this.sentences)` loop of
`rankSentences`: score each sentence, keep the strictly positive ones. -/
noncomputable def rankLoop (query : String) : NMModel → List String → List (String × ℝ) × NMModel
  | m, [] => ([], m)
  | m, s :: ss =>
    let r := calculateTFIDFSimilarity m query s
    let rest := rankLoop query r.2 ss
    (if 0 < r.1 then (s, r.1) :: rest.1 else rest.1, rest.2)

/-- `sentenceRanks.sort((a, b) => b[1] - a[1])`: sort by score descending. -/
noncomputable def sortByScoreDesc (l : List (String × ℝ)) : List (String × ℝ) :=
  l.mergeSort (fun a b => decide (b.2 ≤ a.2))

/-- `rankSentences` (src/model.js): guard empty or non-string query,
score all sentences, keep positive scores, sort descending, truncate
to `topN` when `topN > 0`. -/
noncomputable def rankSentences (m : NMModel) (query : String) (topN : Int) :
    List (String × ℝ) × NMModel :=
  if query = "" then ([], m)
  else
    let r := rankLoop query m m.sentences
    let sorted := sortByScoreDesc r.1
    (if 0 < topN then sorted.take topN.toNat else sorted, r.2)

/-- `getTF` (src/model.js): frequency of the stemmed form of `token`
in the stemmed token stream of the entire source text. -/
noncomputable def getTF (m : NMModel) (token : String) : ℝ :=
  calculateTF (stemWord (lowerStr token)) (parseTokensStemmed m.rawData)

/-- Models the stemming contract exactly as the specification states
it: the ordered reference rule table, applied to the lower-cased word,
first match wins, and the lower-cased word unchanged when no rule
matches.  Used to compare the specified rule-table semantics with
`stemWord` as implemented. -/
def claimRules : List StemRule :=
  [⟨"ies", 4, some "y"⟩, ⟨"es", 4, none⟩, ⟨"s", 3, none⟩, ⟨"ing", 5, none⟩,
   ⟨"ed", 4, none⟩, ⟨"er", 4, none⟩, ⟨"est", 5, none⟩, ⟨"ly", 4, none⟩,
   ⟨"tion", 6, none⟩, ⟨"ness", 6, none⟩, ⟨"ment", 6, none⟩]

/-- The claim-side recursion through the rule table (first matching
rule wins, suffix stripped, replacement appended when present). -/
def claimApply : List StemRule → String → String
  | [], w => w
  | r :: rs, w =>
    if endsWithStr w r.sfx ∧ r.minLen < strLen w then
      dropRightStr w (strLen r.sfx) ++ r.repl.getD ""
    else claimApply rs w

/-- The stemmer as the specification describes it for every word: the
rule table applied to the lower-cased word. -/
def claimStem (w : String) : String := claimApply claimRules (lowerStr w)

/-- Two model states that rank identically: same sentences, same
documents, and `getIDF` returns the same value on every token. -/
def SimEquiv (m m' : NMModel) : Prop :=
  m.sentences = m'.sentences ∧ m.corpusDocs = m'.corpusDocs ∧
    ∀ t, getIDFval m t = getIDFval m' t

/-- The TF-IDF comparison vector of a span over a shared vocabulary,
expressed against a fixed cache state. -/
noncomputable def simVec (m : NMModel) (words vocab : List String) : List ℝ :=
  vocab.map (fun t => calculateTF t words * getIDFval m t)

/-- The score `calculateTFIDFSimilarity` produces, expressed against a
fixed cache state (the bisimulation lemmas show the threaded
computation returns exactly this). -/
noncomputable def simValue (m : NMModel) (sentence1 sentence2 : String) : ℝ :=
  let words1 := parseTokensStemmed sentence1
  let words2 := parseTokensStemmed sentence2
  if words1 = [] ∨ words2 = [] then 0
  else
    let vocab := dedupFirst (words1 ++ words2)
    let v1 := simVec m words1 vocab
    let v2 := simVec m words2 vocab
    if magL v1 = 0 ∨ magL v2 = 0 then 0
    else dotL v1 v2 / (magL v1 * magL v2)

/-- The filtered pre-sort pair list of `rankSentences`: each sentence
with its positive similarity score, in original order. -/
noncomputable def posPairs (m : NMModel) (query : String) : List (String × ℝ) :=
  m.sentences.filterMap (fun s =>
    if 0 < simValue m query s then some (s, simValue m query s) else none)

/-! ## Basic lemmas about the stemmer -/

theorem stemWord_short (w : String) (h : strLen w < 3) : stemWord w = w := by
  simp [stemWord, h]

theorem applyRules_eq_claimApply (rs : List StemRule) (w : String) :
    applyRules rs w = claimApply rs w := by
  induction rs with
  | nil => rfl
  | cons r rs ih => simp only [applyRules, claimApply, ih]

/-- C3 (amended): for every word of length at least 3, `stemWord`
realises exactly the ordered reference rule table applied to the
lower-cased word (first match wins, lower-cased fallback), and the
concrete examples hold; words shorter than 3 characters are returned
unchanged rather than lower-cased. -/
theorem c3_stemmer_rule_table :
    (∀ w, 3 ≤ strLen w → stemWord w = claimStem w) ∧
    (∀ w, strLen w < 3 → stemWord w = w) ∧
    stemWord "running" = "runn" ∧ stemWord "cats" = "cat" ∧
    stemWord "flies" = "fly" ∧ stemWord "faster" = "fast" := by
  refine ⟨fun w h => ?_, fun w h => stemWord_short w h, by decide, by decide, by decide, by decide⟩
  have h3 : ¬ strLen w < 3 := Nat.not_lt.mpr h
  simp only [stemWord, h3, if_false, claimStem]
  exact applyRules_eq_claimApply suffixRules (lowerStr w)

/-- C3 counterexample: on the word "AB" the code returns the word
unchanged, while the claimed rule-table semantics (lower-cased
fallback for every word) would return "ab". -/
theorem c3_counterexample :
    stemWord "AB" = "AB" ∧ claimStem "AB" = "ab" ∧ ("AB" : String) ≠ "ab" := by
  refine ⟨by decide, by decide, by decide⟩

theorem c3_witness :
    (3 ≤ strLen "running" ∧ stemWord "running" = claimStem "running") ∧
    (strLen "AB" < 3 ∧ stemWord "AB" = "AB") :=
  ⟨⟨by decide, c3_stemmer_rule_table.1 "running" (by decide)⟩,
   ⟨by decide, c3_stemmer_rule_table.2.1 "AB" (by decide)⟩⟩

/-- C8 (amended): a word of length strictly less than 3 is returned
unchanged by the stemmer (not lower-cased). -/
theorem c8_short_word_unchanged (w : String) (h : strLen w < 3) : stemWord w = w :=
  stemWord_short w h

/-- C8 counterexample: "It" has length 2, and the stemmer returns "It"
itself, not its lower-cased form "it". -/
theorem c8_counterexample :
    strLen "It" < 3 ∧ stemWord "It" = "It" ∧ stemWord "It" ≠ lowerStr "It" := by
  refine ⟨by decide, by decide, by decide⟩

theorem c8_witness : strLen "ab" < 3 ∧ stemWord "ab" = "ab" :=
  ⟨by decide, c8_short_word_unchanged "ab" (by decide)⟩

/-! ## C7: whole-corpus term frequency -/

/-- C7: `getTF` is the frequency of the stemmed form of the lower-cased
token among the stemmed tokens of the entire source text: the count of
that stem divided by the total number of stemmed tokens. -/
theorem c7_getTF_whole_text (m : NMModel) (token : String) :
    getTF m token =
      ((parseTokensStemmed m.rawData).count (stemWord (lowerStr token)) : ℝ) /
        ((parseTokensStemmed m.rawData).length : ℝ) := by
  unfold getTF calculateTF
  rcases h : parseTokensStemmed m.rawData with _ | ⟨t, ts⟩
  · simp
  · simp only [List.count]
    rw [if_neg (by simp)]
    congr 1
    norm_cast
    exact (List.countP_eq_length_filter _ _).symm

/-! ## C9: empty query -/

/-- C9: ranking with an empty query returns the empty sequence and
leaves the model untouched, whatever the corpus and `topN` are (the
non-string case is excluded by typing, matching the same guard). -/
theorem c9_empty_query (m : NMModel) (topN : Int) :
    (rankSentences m "" topN).1 = [] ∧ (rankSentences m "" topN).2 = m := by
  constructor <;> simp [rankSentences]

/-! ## Deduplication lemmas -/

theorem mem_dedupFirstAux (x : String) :
    ∀ (l seen : List String), x ∈ dedupFirstAux seen l ↔ x ∈ l ∧ x ∉ seen := by
  intro l
  induction l with
  | nil => intro seen; simp [dedupFirstAux]
  | cons y l ih =>
    intro seen
    by_cases h : y ∈ seen
    · rw [show dedupFirstAux seen (y :: l) = dedupFirstAux seen l from by
        simp [dedupFirstAux, if_pos h], ih seen]
      constructor
      · rintro ⟨hl, hs⟩; exact ⟨List.mem_cons_of_mem _ hl, hs⟩
      · rintro ⟨hxl, hs⟩
        rcases List.mem_cons.mp hxl with rfl | hl
        · exact absurd h hs
        · exact ⟨hl, hs⟩
    · rw [show dedupFirstAux seen (y :: l) = y :: dedupFirstAux (y :: seen) l from by
        simp [dedupFirstAux, if_neg h]]
      constructor
      · intro hx
        rcases List.mem_cons.mp hx with rfl | hx
        · exact ⟨List.mem_cons_self x l, h⟩
        · rcases (ih (y :: seen)).mp hx with ⟨hl, hs⟩
          exact ⟨List.mem_cons_of_mem _ hl, fun hxs => hs (List.mem_cons_of_mem _ hxs)⟩
      · rintro ⟨hxl, hs⟩
        rcases List.mem_cons.mp hxl with rfl | hl
        · exact List.mem_cons_self x _
        · by_cases hxy : x = y
          · subst hxy; exact List.mem_cons_self x _
          · refine List.mem_cons_of_mem _ ((ih (y :: seen)).mpr ⟨hl, ?_⟩)
            intro hxs
            rcases List.mem_cons.mp hxs with h1 | h2
            · exact hxy h1
            · exact hs h2

theorem mem_dedupFirst (x : String) (l : List String) : x ∈ dedupFirst l ↔ x ∈ l := by
  simp [dedupFirst, mem_dedupFirstAux]

theorem nodup_dedupFirstAux : ∀ (l seen : List String), (dedupFirstAux seen l).Nodup := by
  intro l
  induction l with
  | nil => intro seen; simp [dedupFirstAux]
  | cons y l ih =>
    intro seen
    by_cases h : y ∈ seen
    · rw [show dedupFirstAux seen (y :: l) = dedupFirstAux seen l from by
        simp [dedupFirstAux, if_pos h]]
      exact ih seen
    · rw [show dedupFirstAux seen (y :: l) = y :: dedupFirstAux (y :: seen) l from by
        simp [dedupFirstAux, if_neg h]]
      refine List.Nodup.cons ?_ (ih (y :: seen))
      intro hy
      exact ((mem_dedupFirstAux y l (y :: seen)).mp hy).2 (List.mem_cons_self y seen)

theorem nodup_dedupFirst (l : List String) : (dedupFirst l).Nodup :=
  nodup_dedupFirstAux l []

theorem dedupFirst_ne_nil (l : List String) (h : l ≠ []) : dedupFirst l ≠ [] := by
  rcases l with _ | ⟨x, l⟩
  · exact absurd rfl h
  · intro hd
    have : x ∈ dedupFirst (x :: l) := (mem_dedupFirst x _).mpr (List.mem_cons_self x l)
    simp [hd] at this

/-! ## The cache bisimulation -/

theorem simEquiv_refl (m : NMModel) : SimEquiv m m := ⟨rfl, rfl, fun _ => rfl⟩

theorem simEquiv_symm {m m' : NMModel} (h : SimEquiv m m') : SimEquiv m' m :=
  ⟨h.1.symm, h.2.1.symm, fun t => (h.2.2 t).symm⟩

theorem simEquiv_trans {m₁ m₂ m₃ : NMModel} (h : SimEquiv m₁ m₂) (h' : SimEquiv m₂ m₃) :
    SimEquiv m₁ m₃ :=
  ⟨h.1.trans h'.1, h.2.1.trans h'.2.1, fun t => (h.2.2 t).trans (h'.2.2 t)⟩

theorem getIDF_fst (m : NMModel) (t : String) : (getIDF m t).1 = getIDFval m t := by
  unfold getIDF getIDFval
  cases h : m.idfCache.lookup t <;> simp

theorem getIDF_snd_sentences (m : NMModel) (t : String) :
    (getIDF m t).2.sentences = m.sentences := by
  unfold getIDF
  cases h : m.idfCache.lookup t <;> simp

theorem getIDF_snd_corpusDocs (m : NMModel) (t : String) :
    (getIDF m t).2.corpusDocs = m.corpusDocs := by
  unfold getIDF
  cases h : m.idfCache.lookup t <;> simp

theorem getIDFval_getIDF_snd (m : NMModel) (t k : String) :
    getIDFval (getIDF m t).2 k = getIDFval m k := by
  unfold getIDF getIDFval
  cases h : m.idfCache.lookup t with
  | some v => simp
  | none =>
    simp only [List.lookup]
    by_cases hk : k = t
    · subst hk
      simp [h]
    · have hbeq : (k == t) = false := by simpa using hk
      simp [hbeq]

theorem getIDF_snd_equiv (m : NMModel) (t : String) : SimEquiv (getIDF m t).2 m :=
  ⟨getIDF_snd_sentences m t, getIDF_snd_corpusDocs m t, getIDFval_getIDF_snd m t⟩

theorem tfidfVecSt_snd_equiv (words : List String) :
    ∀ (vocab : List String) (m : NMModel), SimEquiv (tfidfVecSt words m vocab).2 m := by
  intro vocab
  induction vocab with
  | nil => intro m; exact simEquiv_refl m
  | cons t ts ih =>
    intro m
    exact simEquiv_trans (ih (getIDF m t).2) (getIDF_snd_equiv m t)

theorem tfidfVecSt_fst (words : List String) :
    ∀ (vocab : List String) (m m₀ : NMModel), SimEquiv m m₀ →
      (tfidfVecSt words m vocab).1 = simVec m₀ words vocab := by
  intro vocab
  induction vocab with
  | nil => intro m m₀ _; simp [tfidfVecSt, simVec]
  | cons t ts ih =>
    intro m m₀ h
    have h2 : SimEquiv (getIDF m t).2 m₀ := simEquiv_trans (getIDF_snd_equiv m t) h
    simp only [tfidfVecSt, simVec, List.map_cons]
    rw [ih (getIDF m t).2 m₀ h2, getIDF_fst, h.2.2 t]
    rfl

theorem simVec_congr {m m' : NMModel} (h : SimEquiv m m') (words vocab : List String) :
    simVec m words vocab = simVec m' words vocab := by
  unfold simVec
  exact List.map_congr_left (fun t _ => by rw [h.2.2 t])

theorem calcSim_fst (m : NMModel) (s1 s2 : String) :
    (calculateTFIDFSimilarity m s1 s2).1 = simValue m s1 s2 := by
  unfold calculateTFIDFSimilarity simValue
  by_cases h : parseTokensStemmed s1 = [] ∨ parseTokensStemmed s2 = []
  · simp [h]
  · simp only [h, if_false]
    rw [tfidfVecSt_fst _ _ _ m (simEquiv_refl m),
      tfidfVecSt_fst _ _ _ m (tfidfVecSt_snd_equiv _ _ m)]
    split <;> rfl

theorem calcSim_snd_equiv (m : NMModel) (s1 s2 : String) :
    SimEquiv (calculateTFIDFSimilarity m s1 s2).2 m := by
  unfold calculateTFIDFSimilarity
  by_cases h : parseTokensStemmed s1 = [] ∨ parseTokensStemmed s2 = []
  · simp only [h, if_true]
    exact simEquiv_refl m
  · simp only [h, if_false]
    have h1 := tfidfVecSt_snd_equiv (parseTokensStemmed s1)
      (dedupFirst (parseTokensStemmed s1 ++ parseTokensStemmed s2)) m
    have h2 := simEquiv_trans (tfidfVecSt_snd_equiv (parseTokensStemmed s2)
      (dedupFirst (parseTokensStemmed s1 ++ parseTokensStemmed s2)) _) h1
    by_cases hm : magL (tfidfVecSt (parseTokensStemmed s1) m
        (dedupFirst (parseTokensStemmed s1 ++ parseTokensStemmed s2))).1 = 0 ∨
        magL (tfidfVecSt (parseTokensStemmed s2) (tfidfVecSt (parseTokensStemmed s1) m
          (dedupFirst (parseTokensStemmed s1 ++ parseTokensStemmed s2))).2
          (dedupFirst (parseTokensStemmed s1 ++ parseTokensStemmed s2))).1 = 0
    · simpa [hm] using h2
    · simpa [hm] using h2

theorem simValue_congr {m m' : NMModel} (h : SimEquiv m m') (s1 s2 : String) :
    simValue m s1 s2 = simValue m' s1 s2 := by
  unfold simValue
  simp only [simVec_congr h]

theorem rankLoop_fst (q : String) :
    ∀ (ss : List String) (m m₀ : NMModel), SimEquiv m m₀ →
      (rankLoop q m ss).1 = ss.filterMap (fun s =>
        if 0 < simValue m₀ q s then some (s, simValue m₀ q s) else none) := by
  intro ss
  induction ss with
  | nil => intro m m₀ _; simp [rankLoop]
  | cons s ss ih =>
    intro m m₀ h
    have hv : (calculateTFIDFSimilarity m q s).1 = simValue m₀ q s :=
      (calcSim_fst m q s).trans (simValue_congr h q s)
    have hrest := ih (calculateTFIDFSimilarity m q s).2 m₀
      (simEquiv_trans (calcSim_snd_equiv m q s) h)
    simp only [rankLoop, hv, hrest, List.filterMap_cons]
    by_cases hp : 0 < simValue m₀ q s
    · simp [hp]
    · simp [hp]

theorem rankLoop_snd_equiv (q : String) :
    ∀ (ss : List String) (m : NMModel), SimEquiv (rankLoop q m ss).2 m := by
  intro ss
  induction ss with
  | nil => intro m; exact simEquiv_refl m
  | cons s ss ih =>
    intro m
    exact simEquiv_trans (ih (calculateTFIDFSimilarity m q s).2) (calcSim_snd_equiv m q s)

theorem rankSentences_fst (m : NMModel) (q : String) (n : Int) :
    (rankSentences m q n).1 = if q = "" then [] else
      (if 0 < n then (sortByScoreDesc (posPairs m q)).take n.toNat
       else sortByScoreDesc (posPairs m q)) := by
  unfold rankSentences posPairs
  by_cases hq : q = ""
  · simp [hq]
  · simp only [hq, if_false]
    rw [rankLoop_fst q m.sentences m m (simEquiv_refl m)]

theorem sortByScoreDesc_perm (l : List (String × ℝ)) : (sortByScoreDesc l).Perm l :=
  List.mergeSort_perm l _

theorem sortByScoreDesc_pairwise (l : List (String × ℝ)) :
    (sortByScoreDesc l).Pairwise (fun a b => b.2 ≤ a.2) := by
  have h := @List.sorted_mergeSort (String × ℝ) (fun a b => decide (b.2 ≤ a.2))
    (fun a b c hab hbc => by
      simp only [decide_eq_true_eq] at *
      exact le_trans hbc hab)
    (fun a b => by
      rcases le_total b.2 a.2 with h | h <;> simp [h])
    l
  exact h.imp (fun hab => of_decide_eq_true hab)

/-! ## Numeric facts about TF, IDF, and the cosine -/

theorem calculateTF_nonneg (t : String) (l : List String) : 0 ≤ calculateTF t l := by
  unfold calculateTF
  split
  · exact le_refl 0
  · positivity

theorem calculateTF_pos (t : String) (l : List String) (h : t ∈ l) : 0 < calculateTF t l := by
  unfold calculateTF
  rw [if_neg (List.ne_nil_of_mem h)]
  apply div_pos
  · have hmem : t ∈ l.filter (fun w => w == t) := by
      rw [List.mem_filter]
      exact ⟨h, by simp⟩
    have := List.length_pos.mpr (List.ne_nil_of_mem hmem)
    exact_mod_cast this
  · exact_mod_cast List.length_pos.mpr (List.ne_nil_of_mem h)

theorem dotL_map (f g : String → ℝ) :
    ∀ l : List String, dotL (l.map f) (l.map g) = (l.map (fun t => f t * g t)).sum := by
  intro l
  induction l with
  | nil => simp [dotL]
  | cons t ts ih => simp only [List.map_cons, dotL, List.zipWith_cons_cons, List.sum_cons] at *; rw [ih]

theorem magL_map (f : String → ℝ) (l : List String) :
    magL (l.map f) = Real.sqrt ((l.map (fun t => f t * f t)).sum) := by
  simp [magL, List.map_map]
  rfl

theorem list_cauchy_schwarz (l : List String) (hl : l.Nodup) (f g : String → ℝ) :
    (l.map (fun t => f t * g t)).sum ≤
      Real.sqrt ((l.map (fun t => f t * f t)).sum) *
        Real.sqrt ((l.map (fun t => g t * g t)).sum) := by
  have h1 : (l.map (fun t => f t * g t)).sum = ∑ t ∈ l.toFinset, f t * g t :=
    (List.sum_toFinset _ hl).symm
  have h2 : (l.map (fun t => f t * f t)).sum = ∑ t ∈ l.toFinset, f t ^ 2 := by
    rw [← List.sum_toFinset _ hl]
    exact Finset.sum_congr rfl (fun t _ => by ring)
  have h3 : (l.map (fun t => g t * g t)).sum = ∑ t ∈ l.toFinset, g t ^ 2 := by
    rw [← List.sum_toFinset _ hl]
    exact Finset.sum_congr rfl (fun t _ => by ring)
  rw [h1, h2, h3]
  exact Real.sum_mul_le_sqrt_mul_sqrt l.toFinset f g

theorem simValue_range (m : NMModel) (s1 s2 : String) :
    0 ≤ simValue m s1 s2 ∧ simValue m s1 s2 ≤ 1 := by
  unfold simValue simVec
  by_cases h : parseTokensStemmed s1 = [] ∨ parseTokensStemmed s2 = []
  · simp [h]
  · simp only [h, if_false]
    set w1 := parseTokensStemmed s1
    set w2 := parseTokensStemmed s2
    set vocab := dedupFirst (w1 ++ w2) with hvocab
    set F := fun t => calculateTF t w1 * getIDFval m t with hF
    set G := fun t => calculateTF t w2 * getIDFval m t with hG
    by_cases hm : magL (vocab.map F) = 0 ∨ magL (vocab.map G) = 0
    · simp [hm]
    · simp only [hm, if_false]
      push_neg at hm
      have hdot : dotL (vocab.map F) (vocab.map G) = (vocab.map (fun t => F t * G t)).sum :=
        dotL_map F G vocab
      have hdot_nonneg : 0 ≤ dotL (vocab.map F) (vocab.map G) := by
        rw [hdot]
        apply List.sum_nonneg
        intro x hx
        rcases List.mem_map.mp hx with ⟨t, _, rfl⟩
        have ha := calculateTF_nonneg t w1
        have hb := calculateTF_nonneg t w2
        simp only [hF, hG]
        have hring : calculateTF t w1 * getIDFval m t * (calculateTF t w2 * getIDFval m t) =
            calculateTF t w1 * calculateTF t w2 * (getIDFval m t * getIDFval m t) := by ring
        rw [hring]
        exact mul_nonneg (mul_nonneg ha hb) (mul_self_nonneg _)
      have hmag1_nonneg : 0 ≤ magL (vocab.map F) := Real.sqrt_nonneg _
      have hmag2_nonneg : 0 ≤ magL (vocab.map G) := Real.sqrt_nonneg _
      have hmag1_pos : 0 < magL (vocab.map F) := lt_of_le_of_ne hmag1_nonneg (Ne.symm hm.1)
      have hmag2_pos : 0 < magL (vocab.map G) := lt_of_le_of_ne hmag2_nonneg (Ne.symm hm.2)
      constructor
      · exact div_nonneg hdot_nonneg (mul_nonneg hmag1_nonneg hmag2_nonneg)
      · rw [div_le_one (mul_pos hmag1_pos hmag2_pos), hdot, magL_map, magL_map]
        exact list_cauchy_schwarz vocab (nodup_dedupFirst _) F G

/-- C2: the similarity score always lies in `[0,1]`; it is exactly `0`
when either span's stemmed-token sequence is empty, and exactly `0`
when either TF-IDF comparison vector has magnitude `0`. -/
theorem c2_similarity_range (m : NMModel) (spanA spanB : String) :
    (0 ≤ (calculateTFIDFSimilarity m spanA spanB).1 ∧
      (calculateTFIDFSimilarity m spanA spanB).1 ≤ 1) ∧
    (parseTokensStemmed spanA = [] ∨ parseTokensStemmed spanB = [] →
      (calculateTFIDFSimilarity m spanA spanB).1 = 0) ∧
    (magL (simVec m (parseTokensStemmed spanA)
        (dedupFirst (parseTokensStemmed spanA ++ parseTokensStemmed spanB))) = 0 ∨
      magL (simVec m (parseTokensStemmed spanB)
        (dedupFirst (parseTokensStemmed spanA ++ parseTokensStemmed spanB))) = 0 →
      (calculateTFIDFSimilarity m spanA spanB).1 = 0) := by
  rw [calcSim_fst]
  refine ⟨simValue_range m spanA spanB, fun h => ?_, fun h => ?_⟩
  · simp [simValue, h]
  · unfold simValue
    by_cases he : parseTokensStemmed spanA = [] ∨ parseTokensStemmed spanB = []
    · simp [he]
    · simp [he, h]

theorem c2_witness :
    (parseTokensStemmed "" = [] ∨ parseTokensStemmed "cat" = []) ∧
    (calculateTFIDFSimilarity (NMModel.build "cat") "" "cat").1 = 0 :=
  ⟨Or.inl rfl, (c2_similarity_range (NMModel.build "cat") "" "cat").2.1 (Or.inl rfl)⟩

/-! ## C6: self-similarity -/

/-- C6: for a span whose stemmed-token sequence is non-empty and all
of whose tokens have nonzero IDF, the similarity of the span with
itself is exactly 1. -/
theorem c6_self_similarity (m : NMModel) (a : String)
    (hne : parseTokensStemmed a ≠ [])
    (hidf : ∀ t ∈ parseTokensStemmed a, getIDFval m t ≠ 0) :
    (calculateTFIDFSimilarity m a a).1 = 1 := by
  rw [calcSim_fst]
  unfold simValue simVec
  have hcond : ¬ (parseTokensStemmed a = [] ∨ parseTokensStemmed a = []) := by simp [hne]
  simp only [hcond, if_false]
  set w := parseTokensStemmed a with hw
  set vocab := dedupFirst (w ++ w) with hvocab
  set F := fun t => calculateTF t w * getIDFval m t with hF
  set S := (vocab.map (fun t => F t * F t)).sum with hS
  obtain ⟨t₀, ht₀⟩ := List.exists_mem_of_ne_nil w hne
  have ht₀v : t₀ ∈ vocab := (mem_dedupFirst t₀ _).mpr (List.mem_append_left _ ht₀)
  have hFt₀ : F t₀ ≠ 0 := mul_ne_zero (ne_of_gt (calculateTF_pos t₀ w ht₀)) (hidf t₀ ht₀)
  have hS_elts : ∀ x ∈ vocab.map (fun t => F t * F t), 0 ≤ x := by
    intro x hx
    rcases List.mem_map.mp hx with ⟨t, _, rfl⟩
    exact mul_self_nonneg _
  have hS_pos : 0 < S := by
    have hle : F t₀ * F t₀ ≤ S :=
      List.single_le_sum hS_elts _ (List.mem_map_of_mem _ ht₀v)
    exact lt_of_lt_of_le (mul_self_pos.mpr hFt₀) hle
  have hmag : magL (vocab.map F) = Real.sqrt S := magL_map F vocab
  have hmag_ne : magL (vocab.map F) ≠ 0 := by
    rw [hmag]
    exact Real.sqrt_ne_zero'.mpr hS_pos
  rw [if_neg (by simp [hmag_ne])]
  rw [dotL_map, hmag, Real.mul_self_sqrt (le_of_lt hS_pos)]
  exact div_self (ne_of_gt hS_pos)

/-! ## C10: symmetry of the similarity score -/

/-- C10: the similarity score is symmetric in its two span arguments,
even though the shared vocabulary is assembled in a different insertion
order for the two argument orders. -/
theorem c10_similarity_symmetric (m : NMModel) (a b : String) :
    (calculateTFIDFSimilarity m a b).1 = (calculateTFIDFSimilarity m b a).1 := by
  rw [calcSim_fst, calcSim_fst]
  unfold simValue simVec
  by_cases h : parseTokensStemmed a = [] ∨ parseTokensStemmed b = []
  · rw [if_pos h, if_pos h.symm]
  · have h' : ¬ (parseTokensStemmed b = [] ∨ parseTokensStemmed a = []) :=
      fun hc => h hc.symm
    rw [if_neg h, if_neg h']
    set wa := parseTokensStemmed a with hwa
    set wb := parseTokensStemmed b with hwb
    set Va := dedupFirst (wa ++ wb) with hVa
    set Vb := dedupFirst (wb ++ wa) with hVb
    have hperm : Va.Perm Vb := by
      rw [List.perm_ext_iff_of_nodup (nodup_dedupFirst _) (nodup_dedupFirst _)]
      intro x
      rw [mem_dedupFirst, mem_dedupFirst, List.mem_append, List.mem_append]
      exact or_comm
    set F := fun t => calculateTF t wa * getIDFval m t with hF
    set G := fun t => calculateTF t wb * getIDFval m t with hG
    have hsum : ∀ f : String → ℝ, (Va.map f).sum = (Vb.map f).sum :=
      fun f => (hperm.map f).sum_eq
    have hmagF : magL (Va.map F) = magL (Vb.map F) := by
      rw [magL_map, magL_map, hsum]
    have hmagG : magL (Va.map G) = magL (Vb.map G) := by
      rw [magL_map, magL_map, hsum]
    have hdot : dotL (Va.map F) (Va.map G) = dotL (Vb.map G) (Vb.map F) := by
      rw [dotL_map, dotL_map, hsum (fun t => F t * G t)]
      congr 1
      exact List.map_congr_left (fun t _ => (mul_comm (G t) (F t)).symm)
    by_cases hm : magL (Va.map F) = 0 ∨ magL (Va.map G) = 0
    · have hm' : magL (Vb.map G) = 0 ∨ magL (Vb.map F) = 0 := by
        rcases hm with h1 | h1
        · exact Or.inr (hmagF ▸ h1)
        · exact Or.inl (hmagG ▸ h1)
      rw [if_pos hm, if_pos hm']
    · have hm' : ¬ (magL (Vb.map G) = 0 ∨ magL (Vb.map F) = 0) := by
        intro hc
        rcases hc with h1 | h1
        · exact hm (Or.inr (hmagG.symm ▸ h1))
        · exact hm (Or.inl (hmagF.symm ▸ h1))
      rw [if_neg hm, if_neg hm', hdot, hmagF, hmagG, mul_comm (magL (Vb.map F)) (magL (Vb.map G))]

/-! ## C1: properties of the ranked list -/

theorem simValue_empty_query (m : NMModel) (s : String) : simValue m "" s = 0 := by
  unfold simValue
  simp [parseTokensStemmed]

theorem posPairs_empty_query (m : NMModel) : posPairs m "" = [] := by
  unfold posPairs
  rw [List.filterMap_eq_nil_iff]
  intro s _
  simp [simValue_empty_query]

/-- C1: every returned score is strictly positive, the scores are
sorted in descending order, the result has length at most `topN` when
`topN > 0`, and for `topN ≤ 0` the result is exactly the full filtered
list (up to the sort's rearrangement). -/
theorem c1_rank_properties (m : NMModel) (query : String) (topN : Int) :
    (∀ p ∈ (rankSentences m query topN).1, 0 < p.2) ∧
    (rankSentences m query topN).1.Pairwise (fun a b => b.2 ≤ a.2) ∧
    (0 < topN → ((rankSentences m query topN).1.length : Int) ≤ topN) ∧
    (topN ≤ 0 → (rankSentences m query topN).1.Perm (posPairs m query)) := by
  rw [rankSentences_fst]
  by_cases hq : query = ""
  · subst hq
    rw [if_pos rfl, posPairs_empty_query]
    refine ⟨by simp, by simp, fun hn => by simpa using le_of_lt hn, fun _ => List.Perm.refl _⟩
  · rw [if_neg hq]
    have hsub : (if 0 < topN then (sortByScoreDesc (posPairs m query)).take topN.toNat
        else sortByScoreDesc (posPairs m query)).Sublist (sortByScoreDesc (posPairs m query)) := by
      split
      · exact List.take_sublist _ _
      · exact List.Sublist.refl _
    refine ⟨?_, ?_, ?_, ?_⟩
    · intro p hp
      have hp' : p ∈ posPairs m query :=
        (sortByScoreDesc_perm (posPairs m query)).subset (hsub.subset hp)
      rcases List.mem_filterMap.mp hp' with ⟨s, _, hfs⟩
      by_cases hps : 0 < simValue m query s
      · rw [if_pos hps] at hfs
        injection hfs with hfs'
        rw [← hfs']
        exact hps
      · rw [if_neg hps] at hfs
        exact Option.noConfusion hfs
    · exact (sortByScoreDesc_pairwise (posPairs m query)).sublist hsub
    · intro hn
      rw [if_pos hn]
      have hlen : (List.take topN.toNat (sortByScoreDesc (posPairs m query))).length ≤
          topN.toNat := List.length_take_le _ _
      calc ((List.take topN.toNat (sortByScoreDesc (posPairs m query))).length : Int)
          ≤ (topN.toNat : Int) := by exact_mod_cast hlen
        _ = topN := Int.toNat_of_nonneg (le_of_lt hn)
    · intro hn
      rw [if_neg (by omega)]
      exact sortByScoreDesc_perm _

theorem c1_witness :
    0 < (1 : Int) ∧
    (((rankSentences (NMModel.build "The cat sat. The dog ran fast.") "cat" 1).1.length : Int)
      ≤ 1) :=
  ⟨by decide,
    (c1_rank_properties (NMModel.build "The cat sat. The dog ran fast.") "cat" 1).2.2.1
      (by decide)⟩

/-! ## C5: idempotence and purity of the lazy IDF cache fill -/

theorem posPairs_congr {m m' : NMModel} (h : SimEquiv m m') (q : String) :
    posPairs m q = posPairs m' q := by
  unfold posPairs
  rw [h.1]
  have hf : (fun s => if 0 < simValue m q s then some (s, simValue m q s) else none) =
      (fun s => if 0 < simValue m' q s then some (s, simValue m' q s) else none) := by
    funext s
    rw [simValue_congr h]
  rw [hf]

theorem rankSentences_fst_congr {m m' : NMModel} (h : SimEquiv m m') (q : String) (n : Int) :
    (rankSentences m q n).1 = (rankSentences m' q n).1 := by
  rw [rankSentences_fst, rankSentences_fst, posPairs_congr h]

/-- C5: filling the cache for a previously uncached token returns the
same value on a second call, preserves every previously cached entry,
leaves the document set (and sentence list) unchanged, and does not
change the result of any subsequent ranking call. -/
theorem c5_getIDF_idempotent (m : NMModel) (t : String)
    (h : m.idfCache.lookup t = none) :
    (getIDF (getIDF m t).2 t).1 = (getIDF m t).1 ∧
    (∀ k v, m.idfCache.lookup k = some v → (getIDF m t).2.idfCache.lookup k = some v) ∧
    (getIDF m t).2.corpusDocs = m.corpusDocs ∧
    (getIDF m t).2.sentences = m.sentences ∧
    ∀ q n, (rankSentences (getIDF m t).2 q n).1 = (rankSentences m q n).1 := by
  refine ⟨?_, ?_, getIDF_snd_corpusDocs m t, getIDF_snd_sentences m t, ?_⟩
  · rw [getIDF_fst, getIDF_fst, getIDFval_getIDF_snd]
  · intro k v hk
    have hkt : k ≠ t := fun hkt => by rw [hkt, h] at hk; exact Option.noConfusion hk
    unfold getIDF
    rw [h]
    simp only [List.lookup]
    rw [show (k == t) = false from by simpa using hkt]
    exact hk
  · intro q n
    exact rankSentences_fst_congr (getIDF_snd_equiv m t) q n

theorem c5_witness :
    (NMModel.build "").idfCache.lookup "cat" = none ∧
    (getIDF (getIDF (NMModel.build "") "cat").2 "cat").1 = (getIDF (NMModel.build "") "cat").1 :=
  ⟨rfl, (c5_getIDF_idempotent (NMModel.build "") "cat" rfl).1⟩

/-! ## C4: range and monotonicity of the IDF formula -/

/-- C4 (amended): over a non-empty document list, the IDF value is
strictly positive, bounded by `ln(N+1)+1`, and monotonically
non-increasing as the document-frequency count grows with the corpus
fixed.  (For the empty document list the code returns `0` instead.) -/
theorem c4_idf_range_monotone (t : String) (docs : List (List String)) (h : docs ≠ []) :
    0 < calculateIDF t docs ∧
    calculateIDF t docs ≤ Real.log ((docs.length : ℝ) + 1) + 1 ∧
    ∀ t', dfCount t docs ≤ dfCount t' docs → calculateIDF t' docs ≤ calculateIDF t docs := by
  have hdf_le : (dfCount t docs : ℝ) ≤ (docs.length : ℝ) := by
    exact_mod_cast List.length_filter_le _ docs
  have hpos : (0:ℝ) < (dfCount t docs : ℝ) + 1 := by positivity
  have hNpos : (0:ℝ) < (docs.length : ℝ) + 1 := by positivity
  have hratio_ge : (1:ℝ) ≤ ((docs.length : ℝ) + 1) / ((dfCount t docs : ℝ) + 1) := by
    rw [le_div_iff₀ hpos]
    linarith
  refine ⟨?_, ?_, ?_⟩
  · unfold calculateIDF
    rw [if_neg h]
    have := Real.log_nonneg hratio_ge
    linarith
  · unfold calculateIDF
    rw [if_neg h]
    have hle : ((docs.length : ℝ) + 1) / ((dfCount t docs : ℝ) + 1) ≤ (docs.length : ℝ) + 1 := by
      apply div_le_self (le_of_lt hNpos)
      have : (0:ℝ) ≤ (dfCount t docs : ℝ) := Nat.cast_nonneg _
      linarith
    have := Real.log_le_log (lt_of_lt_of_le one_pos hratio_ge) hle
    linarith
  · intro t' ht'
    unfold calculateIDF
    rw [if_neg h, if_neg h]
    have hratio : ((docs.length : ℝ) + 1) / ((dfCount t' docs : ℝ) + 1) ≤
        ((docs.length : ℝ) + 1) / ((dfCount t docs : ℝ) + 1) := by
      gcongr
    have hpos' : (0:ℝ) < ((docs.length : ℝ) + 1) / ((dfCount t' docs : ℝ) + 1) := by positivity
    have := Real.log_le_log hpos' hratio
    linarith

/-- C4 counterexample: for a corpus with zero documents the code
returns `0`, so IDF is not strictly positive for every corpus. -/
theorem c4_counterexample :
    calculateIDF "a" ([] : List (List String)) = 0 ∧
    ¬ 0 < calculateIDF "a" ([] : List (List String)) := by
  constructor <;> simp [calculateIDF]

theorem c4_witness :
    (([["a"]] : List (List String)) ≠ [] ∧ 0 < calculateIDF "b" [["a"]]) ∧
    (dfCount "b" [["a"]] ≤ dfCount "a" [["a"]] ∧
      calculateIDF "a" [["a"]] ≤ calculateIDF "b" [["a"]]) :=
  ⟨⟨by decide, (c4_idf_range_monotone "b" [["a"]] (by decide)).1⟩,
   ⟨by decide, (c4_idf_range_monotone "b" [["a"]] (by decide)).2.2 "a" (by decide)⟩⟩

theorem c6_witness :
    (parseTokensStemmed "cat" ≠ [] ∧
      ∀ t ∈ parseTokensStemmed "cat", getIDFval (NMModel.build "cat") t ≠ 0) ∧
    (calculateTFIDFSimilarity (NMModel.build "cat") "cat" "cat").1 = 1 := by
  have hpts : parseTokensStemmed "cat" = ["cat"] := by decide
  have hcache : (NMModel.build "cat").idfCache = [("cat", calculateIDF "cat" [["cat"]])] := rfl
  have hidfval : getIDFval (NMModel.build "cat") "cat" = calculateIDF "cat" [["cat"]] := by
    unfold getIDFval
    rw [hcache]
    simp [List.lookup]
  have hcalc : calculateIDF "cat" [["cat"]] = 1 := by
    unfold calculateIDF
    rw [if_neg (by simp)]
    have hdf : dfCount "cat" [["cat"]] = 1 := by decide
    rw [hdf]
    norm_num [Real.log_one]
  have hidf : ∀ t ∈ parseTokensStemmed "cat", getIDFval (NMModel.build "cat") t ≠ 0 := by
    rw [hpts]
    intro t ht
    rw [List.mem_singleton] at ht
    subst ht
    rw [hidfval, hcalc]
    norm_num
  exact ⟨⟨by rw [hpts]; simp, hidf⟩,
    c6_self_similarity (NMModel.build "cat") "cat" (by rw [hpts]; simp) hidf⟩
